import Mathlib

/-!
Verification of the flyctl multi-account store (`internal/config/accounts.go`).

The Go code keeps an `AccountsFile` value with an `Active` email marker and an
ordered slice of `Account`s, mutated in place by its methods.  We embed it
shallowly: each method becomes a pure function; methods that mutate the
receiver and return an `error` become functions returning the new state paired
with an optional error.  `time.Time` values are modelled as `Nat`, where `0` is
Go's zero time (`IsZero`).
-/

set_option autoImplicit false

namespace Flyctl

/-- Struct `Account` from accounts.go: one authorized account.  `metricsToken = ""`
and `lastLogin = 0` are Go's zero values for the optional fields. -/
structure Account where
  email : String
  accessToken : String
  metricsToken : String
  lastLogin : Nat
  deriving Repr, DecidableEq

/-- Struct `AccountsFile` from accounts.go: the multi-account storage file. -/
structure AccountsFile where
  active : String
  accounts : List Account
  deriving Repr, DecidableEq

/-- The two sentinel errors `ErrNoAccounts` and `ErrAccountNotFound`. -/
inductive AccountsError where
  | noAccounts
  | accountNotFound
  deriving Repr, DecidableEq

/-- The emails of the stored accounts, in order. -/
def emails (af : AccountsFile) : List String :=
  af.accounts.map (·.email)

/-- Method `AccountsFile.GetActiveAccount`: error on an empty store; first entry when
`Active` is empty; otherwise the first entry whose email equals `Active`,
falling back to the first entry when none matches. -/
def GetActiveAccount (af : AccountsFile) : Except AccountsError Account :=
  match af.accounts with
  | [] => .error .noAccounts
  | a :: rest =>
    if af.active = "" then .ok a
    else
      match (a :: rest).find? (fun x => x.email = af.active) with
      | some x => .ok x
      | none => .ok a

/-- Method `AccountsFile.GetAccount`: linear lookup by exact email match. -/
def GetAccount (af : AccountsFile) (email : String) : Except AccountsError Account :=
  match af.accounts.find? (fun a => a.email = email) with
  | some a => .ok a
  | none => .error .accountNotFound

/-- The loop body of `AddOrUpdateAccount`: replace the first entry with the
same email in place, or append when no entry matches. -/
def addOrUpdateList : List Account → Account → List Account
  | [], account => [account]
  | a :: rest, account =>
    if a.email = account.email then account :: rest
    else a :: addOrUpdateList rest account

/-- Method `AccountsFile.AddOrUpdateAccount`: replace in place or append, and make
the new/updated account active.  It has no error return. -/
def AddOrUpdateAccount (af : AccountsFile) (account : Account) : AccountsFile :=
  { active := account.email, accounts := addOrUpdateList af.accounts account }

/-- The index search and slice deletion of `RemoveAccount`: delete the first
entry with the given email, `none` when no entry matches. -/
def removeFirst : List Account → String → Option (List Account)
  | [], _ => none
  | a :: rest, email =>
    if a.email = email then some rest
    else (removeFirst rest email).map (a :: ·)

/-- Method `AccountsFile.RemoveAccount`: delete the matching entry; if it was active,
switch `active` to the first remaining entry's email or clear it.  Returns the
new state and `ErrAccountNotFound` when nothing matched. -/
def RemoveAccount (af : AccountsFile) (email : String) :
    AccountsFile × Option AccountsError :=
  match removeFirst af.accounts email with
  | none => (af, some .accountNotFound)
  | some rest =>
    ({ active :=
        if af.active = email then
          match rest with
          | [] => ""
          | a :: _ => a.email
        else af.active,
       accounts := rest }, none)

/-- Method `AccountsFile.SetActive`: set `active` only when some entry has the given
email, otherwise leave the state unchanged and report `ErrAccountNotFound`. -/
def SetActive (af : AccountsFile) (email : String) :
    AccountsFile × Option AccountsError :=
  if af.accounts.any (fun a => a.email = email) then
    ({ af with active := email }, none)
  else (af, some .accountNotFound)

/-- Method `AccountsFile.HasAccounts`: `len(af.Accounts) > 0`. -/
def HasAccounts (af : AccountsFile) : Bool :=
  decide (0 < af.accounts.length)

/-- Method `AccountsFile.AccountCount`: `len(af.Accounts)`. -/
def AccountCount (af : AccountsFile) : Nat :=
  af.accounts.length

/-- The empty store, Go's zero value `AccountsFile{}`. -/
def emptyStore : AccountsFile :=
  { active := "", accounts := [] }

/-- Stores reachable from the empty store through the mutating store
operations (the error cases of `RemoveAccount`/`SetActive` leave the state
unchanged, so closing under the returned state covers them too). -/
inductive Reachable : AccountsFile → Prop where
  | empty : Reachable emptyStore
  | add (af : AccountsFile) (a : Account) :
      Reachable af → Reachable (AddOrUpdateAccount af a)
  | remove (af : AccountsFile) (e : String) :
      Reachable af → Reachable (RemoveAccount af e).1
  | set (af : AccountsFile) (e : String) :
      Reachable af → Reachable (SetActive af e).1

/-- Invariants I1 (no duplicate emails), I2 (a non-empty `active` marks a
stored entry) and I3 (empty store has empty `active`) bundled. -/
def Inv (af : AccountsFile) : Prop :=
  (emails af).Nodup ∧ (af.active = "" ∨ af.active ∈ emails af) ∧
    (af.accounts = [] → af.active = "")

/-! ## Persistence layer

`marshalAccounts`/`unmarshalAccounts` serialize through `yaml.v3`.  We embed
the on-disk YAML document structurally: the `omitempty` tags drop
`metrics_token` when it is the empty string and `last_login` when the time is
zero, so the document keeps those two fields as `Option`s.  A path on disk
holds a `FileState`: absent, a well-formed document, a malformed document, or
a file the OS fails to read (any other I/O error). -/

/-- One `accounts:` entry of the YAML document, with the `omitempty` fields
optional. -/
structure AccountDoc where
  email : String
  access_token : String
  metrics_token : Option String
  last_login : Option Nat
  deriving Repr, DecidableEq

/-- The YAML document written to `accounts.yml`. -/
structure AccountsDoc where
  active : String
  accounts : List AccountDoc
  deriving Repr, DecidableEq

/-- What `yaml.Marshal` emits for one account: `omitempty` drops the empty
metrics token and the zero last-login time. -/
def marshalAccount (a : Account) : AccountDoc :=
  { email := a.email
    access_token := a.accessToken
    metrics_token := if a.metricsToken = "" then none else some a.metricsToken
    last_login := if a.lastLogin = 0 then none else some a.lastLogin }

/-- What decoding one entry yields: absent optional fields decode to the zero
values. -/
def unmarshalAccount (d : AccountDoc) : Account :=
  { email := d.email
    accessToken := d.access_token
    metricsToken := d.metrics_token.getD ""
    lastLogin := d.last_login.getD 0 }

/-- Encoding of a whole `AccountsFile`, as `yaml.Marshal` produces it. -/
def marshalDoc (af : AccountsFile) : AccountsDoc :=
  { active := af.active, accounts := af.accounts.map marshalAccount }

/-- Decoding a whole well-formed document. -/
def unmarshalDoc (d : AccountsDoc) : AccountsFile :=
  { active := d.active, accounts := d.accounts.map unmarshalAccount }

/-- The state of one path on disk. -/
inductive FileState where
  | absent
  | wellFormed (doc : AccountsDoc)
  | malformed
  | unreadable
  deriving DecidableEq

/-- The filesystem: what each path holds. -/
def FS : Type := String → FileState

/-- The errors `unmarshalAccounts` can surface: `fs.ErrNotExist` from
`os.Open`, any other read failure, or a `yaml` decode failure. -/
inductive UnmarshalError where
  | notExist
  | readFailure
  | decodeFailure
  deriving Repr, DecidableEq

/-- Constant `AccountsFileName`. -/
def AccountsFileName : String := "accounts.yml"

/-- Function `AccountsFilePath`: the fixed filename inside the config directory. -/
def AccountsFilePath (configDir : String) : String :=
  configDir ++ "/" ++ AccountsFileName

/-- Function `unmarshalAccounts`: open and decode the file at `path` (the advisory
read lock it takes around the read is not modelled). -/
def unmarshalAccounts (fs : FS) (path : String) : Except UnmarshalError AccountsDoc :=
  match fs path with
  | .absent => .error .notExist
  | .unreadable => .error .readFailure
  | .malformed => .error .decodeFailure
  | .wellFormed d => .ok d

/-- Function `LoadAccounts`: decode the accounts file of the directory; a missing file
becomes a fresh empty store, every other failure is returned. -/
def LoadAccounts (fs : FS) (configDir : String) : Except UnmarshalError AccountsFile :=
  match unmarshalAccounts fs (AccountsFilePath configDir) with
  | .error .notExist => .ok emptyStore
  | .error e => .error e
  | .ok d => .ok (unmarshalDoc d)

/-- Functions `SaveAccounts`/`marshalAccounts`: serialize the store and write the whole
document to the accounts path (write lock and file permissions not
modelled). -/
def SaveAccounts (fs : FS) (configDir : String) (af : AccountsFile) : FS :=
  fun p => if p = AccountsFilePath configDir then .wellFormed (marshalDoc af) else fs p

/-! ## Active-account sync bridge

`SyncActiveAccountToConfig` pushes the active account's credentials into the
legacy single-account config through `SetAccessToken`, `SetMetricsToken` and
`SetLastLogin`. -/

/-- The three legacy-config setters, in the order the sync calls them. -/
inductive SetterKind where
  | accessToken
  | metricsToken
  | lastLogin
  deriving Repr, DecidableEq

/-- Modelled from the spec: the legacy single-account config file that the
setters `SetAccessToken`, `SetMetricsToken` and `SetLastLogin` operate on is
not part of the shown source; per §4.3/§6 it holds an access token, a metrics
token and a last-login timestamp. -/
structure LegacyConfig where
  accessToken : String
  metricsToken : String
  lastLogin : Nat
  deriving Repr, DecidableEq

/-- The errors `SyncActiveAccountToConfig` can return: a load failure, an
active-account resolution failure, or a failing setter. -/
inductive SyncError where
  | load (e : UnmarshalError)
  | activeAccount (e : AccountsError)
  | setter (k : SetterKind)
  deriving Repr, DecidableEq

/-- Outcome of a sync: the legacy config after it (partial effects kept), the
setters invoked in order, and the surfaced error, if any. -/
structure SyncResult where
  config : LegacyConfig
  calls : List SetterKind
  err : Option SyncError
  deriving Repr, DecidableEq

/-- Modelled from the spec: `SetLastLogin` is not in the shown source; a
setter call either succeeds and writes its field (`ok .lastLogin = true`) or
fails surfacing its error and leaves the config unchanged.  This is the
last-login step of the sync: skipped when the timestamp is zero. -/
def syncLastLoginStep (ok : SetterKind → Bool) (account : Account)
    (cfg : LegacyConfig) (calls : List SetterKind) : SyncResult :=
  if account.lastLogin = 0 then ⟨cfg, calls, none⟩
  else if ok .lastLogin then
    ⟨{ cfg with lastLogin := account.lastLogin }, calls ++ [.lastLogin], none⟩
  else ⟨cfg, calls ++ [.lastLogin], some (.setter .lastLogin)⟩

/-- Modelled from the spec: `SetMetricsToken` is not in the shown source; as
above a call either writes the field or fails.  This is the metrics-token
step of the sync, skipped when the token is empty, followed by the last-login
step. -/
def syncMetricsStep (ok : SetterKind → Bool) (account : Account)
    (cfg : LegacyConfig) (calls : List SetterKind) : SyncResult :=
  if account.metricsToken = "" then syncLastLoginStep ok account cfg calls
  else if ok .metricsToken then
    syncLastLoginStep ok account { cfg with metricsToken := account.metricsToken }
      (calls ++ [.metricsToken])
  else ⟨cfg, calls ++ [.metricsToken], some (.setter .metricsToken)⟩

/-- Function `SyncActiveAccountToConfig`: load the store, succeed as a no-op when it
has no accounts, otherwise resolve the active account and run the three
setter steps in order, aborting on the first failure.  `ok` says which of the
(modelled, external) setters succeed. -/
def SyncActiveAccountToConfig (ok : SetterKind → Bool) (fs : FS)
    (configDir : String) (cfg : LegacyConfig) : SyncResult :=
  match LoadAccounts fs configDir with
  | .error e => ⟨cfg, [], some (.load e)⟩
  | .ok af =>
    if HasAccounts af then
      match GetActiveAccount af with
      | .error e => ⟨cfg, [], some (.activeAccount e)⟩
      | .ok account =>
        if ok .accessToken then
          syncMetricsStep ok account { cfg with accessToken := account.accessToken }
            [.accessToken]
        else ⟨cfg, [.accessToken], some (.setter .accessToken)⟩
    else ⟨cfg, [], none⟩

/-! Spec-side model of the sync, for claim C9: the planned setter calls and
an abstract "run the planned setters in order, abort on the first failure"
interpreter, written to the spec's words in §4.3. -/

/-- The setters §4.3 says a sync performs for a resolved account: the access
token unconditionally, the metrics token if non-empty, the last login if the
timestamp is non-zero. -/
def plannedSetters (account : Account) : List SetterKind :=
  [SetterKind.accessToken]
    ++ (if account.metricsToken = "" then [] else [SetterKind.metricsToken])
    ++ (if account.lastLogin = 0 then [] else [SetterKind.lastLogin])

/-- The effect of one successful setter call on the legacy config. -/
def applySetter (account : Account) (cfg : LegacyConfig) :
    SetterKind → LegacyConfig
  | .accessToken => { cfg with accessToken := account.accessToken }
  | .metricsToken => { cfg with metricsToken := account.metricsToken }
  | .lastLogin => { cfg with lastLogin := account.lastLogin }

/-- Run planned setters in order: each is invoked in turn; the first failing
call aborts with its error, keeping the effects of the earlier calls. -/
def runSetters (ok : SetterKind → Bool) (account : Account) :
    LegacyConfig → List SetterKind → SyncResult
  | cfg, [] => ⟨cfg, [], none⟩
  | cfg, k :: ks =>
    if ok k then
      let r := runSetters ok account (applySetter account cfg k) ks
      ⟨r.config, k :: r.calls, r.err⟩
    else ⟨cfg, [k], some (.setter k)⟩

/-- The sync as §4.3 words it: load; empty store is a successful no-op;
otherwise resolve the active account and run the planned setters. -/
def syncActiveSpec (ok : SetterKind → Bool) (fs : FS) (configDir : String)
    (cfg : LegacyConfig) : SyncResult :=
  match LoadAccounts fs configDir with
  | .error e => ⟨cfg, [], some (.load e)⟩
  | .ok af =>
    if HasAccounts af then
      match GetActiveAccount af with
      | .error e => ⟨cfg, [], some (.activeAccount e)⟩
      | .ok account => runSetters ok account cfg (plannedSetters account)
    else ⟨cfg, [], none⟩

end Flyctl

deriving instance DecidableEq for Except

namespace Flyctl

/-! ## Helper lemmas about the list operations -/

theorem emails_addOrUpdateList (l : List Account) (a : Account) :
    (addOrUpdateList l a).map (·.email) =
      if a.email ∈ l.map (·.email) then l.map (·.email)
      else l.map (·.email) ++ [a.email] := by
  induction l with
  | nil => simp [addOrUpdateList]
  | cons b rest ih =>
    by_cases hb : b.email = a.email
    · simp [addOrUpdateList, hb]
    · have hne : a.email ≠ b.email := fun h => hb h.symm
      simp only [addOrUpdateList, if_neg hb, List.map_cons, List.mem_cons, hne,
        false_or, ih]
      by_cases hm : a.email ∈ rest.map (·.email) <;> simp [hm]

theorem addOrUpdateList_ne_nil (l : List Account) (a : Account) :
    addOrUpdateList l a ≠ [] := by
  cases l with
  | nil => simp [addOrUpdateList]
  | cons b rest =>
    by_cases hb : b.email = a.email <;> simp [addOrUpdateList, hb]

theorem addOrUpdateList_of_not_mem (l : List Account) (a : Account)
    (h : ∀ b ∈ l, b.email ≠ a.email) : addOrUpdateList l a = l ++ [a] := by
  induction l with
  | nil => simp [addOrUpdateList]
  | cons b rest ih =>
    have hb : b.email ≠ a.email := h b (by simp)
    simp only [addOrUpdateList, if_neg hb, List.cons_append, List.cons.injEq,
      true_and]
    exact ih fun c hc => h c (by simp [hc])

theorem addOrUpdateList_replace (l1 : List Account) (b : Account)
    (l2 : List Account) (a : Account) (h1 : ∀ c ∈ l1, c.email ≠ a.email)
    (hb : b.email = a.email) :
    addOrUpdateList (l1 ++ b :: l2) a = l1 ++ a :: l2 := by
  induction l1 with
  | nil => simp [addOrUpdateList, hb]
  | cons c rest ih =>
    have hc : c.email ≠ a.email := h1 c (by simp)
    simp only [List.cons_append, addOrUpdateList, if_neg hc, List.cons.injEq,
      true_and]
    exact ih fun d hd => h1 d (by simp [hd])

theorem find?_addOrUpdateList (l : List Account) (a : Account) :
    (addOrUpdateList l a).find? (fun x => x.email = a.email) = some a := by
  induction l with
  | nil => simp [addOrUpdateList, List.find?]
  | cons b rest ih =>
    by_cases hb : b.email = a.email
    · simp [addOrUpdateList, hb, List.find?]
    · simp [addOrUpdateList, hb, List.find?, ih]

theorem removeFirst_nil (email : String) : removeFirst [] email = none := rfl

theorem removeFirst_cons (a : Account) (rest : List Account) (email : String) :
    removeFirst (a :: rest) email =
      if a.email = email then some rest
      else (removeFirst rest email).map (a :: ·) := rfl

theorem removeFirst_eq_none (l : List Account) (email : String) :
    removeFirst l email = none ↔ ∀ a ∈ l, a.email ≠ email := by
  induction l with
  | nil => simp [removeFirst_nil]
  | cons b rest ih =>
    by_cases hb : b.email = email
    · simp [removeFirst_cons, hb]
    · rw [removeFirst_cons, if_neg hb]
      simp only [Option.map_eq_none', List.mem_cons, ih]
      constructor
      · rintro h a (rfl | ha)
        · exact hb
        · exact h a ha
      · intro h a ha
        exact h a (Or.inr ha)

theorem removeFirst_eq_some (l : List Account) (email : String)
    (rest : List Account) (h : removeFirst l email = some rest) :
    ∃ l1 b l2, l = l1 ++ b :: l2 ∧ b.email = email ∧
      (∀ c ∈ l1, c.email ≠ email) ∧ rest = l1 ++ l2 := by
  induction l generalizing rest with
  | nil => simp [removeFirst_nil] at h
  | cons a tail ih =>
    by_cases ha : a.email = email
    · rw [removeFirst_cons, if_pos ha, Option.some.injEq] at h
      exact ⟨[], a, tail, by simp, ha, by simp, by simp [h.symm]⟩
    · rw [removeFirst_cons, if_neg ha, Option.map_eq_some'] at h
      obtain ⟨tl, htl, rfl⟩ := h
      obtain ⟨l1, b, l2, rfl, hb, hclean, rfl⟩ := ih tl htl
      refine ⟨a :: l1, b, l2, by simp, hb, ?_, by simp⟩
      intro c hc
      rcases List.mem_cons.1 hc with rfl | hc
      · exact ha
      · exact hclean c hc

theorem removeFirst_append (l1 : List Account) (b : Account) (l2 : List Account)
    (email : String) (h1 : ∀ c ∈ l1, c.email ≠ email) (hb : b.email = email) :
    removeFirst (l1 ++ b :: l2) email = some (l1 ++ l2) := by
  induction l1 with
  | nil => simp [removeFirst_cons, hb]
  | cons c rest ih =>
    have hc : c.email ≠ email := h1 c (by simp)
    rw [List.cons_append, removeFirst_cons, if_neg hc,
      ih fun d hd => h1 d (by simp [hd])]
    simp

theorem find?_append_clean (l1 : List Account) (b : Account) (l2 : List Account)
    (email : String) (h1 : ∀ c ∈ l1, c.email ≠ email) (hb : b.email = email) :
    (l1 ++ b :: l2).find? (fun x => x.email = email) = some b := by
  induction l1 with
  | nil =>
    rw [List.nil_append]
    exact List.find?_cons_of_pos _ (by simp [hb])
  | cons c rest ih =>
    have hc : c.email ≠ email := h1 c (by simp)
    rw [List.cons_append, List.find?_cons_of_neg _ (by simp [hc])]
    exact ih fun d hd => h1 d (by simp [hd])

theorem find?_of_nodup (l : List Account) (x : Account) (email : String)
    (hnd : (l.map (·.email)).Nodup) (hx : x ∈ l) (he : x.email = email) :
    l.find? (fun a => a.email = email) = some x := by
  induction l with
  | nil => simp at hx
  | cons b rest ih =>
    rcases List.mem_cons.1 hx with rfl | hx
    · exact List.find?_cons_of_pos _ (by simp [he])
    · have hb : b.email ≠ email := by
        intro hbe
        have : x.email ∈ rest.map (·.email) := List.mem_map_of_mem _ hx
        rw [he, ← hbe] at this
        exact (List.nodup_cons.1 (by simpa using hnd)).1 this
      rw [List.find?_cons_of_neg _ (by simp [hb])]
      exact ih (List.nodup_cons.1 (by simpa using hnd)).2 hx

/-! ## Invariant preservation and reachability -/

theorem emails_AddOrUpdateAccount (af : AccountsFile) (a : Account) :
    emails (AddOrUpdateAccount af a) =
      if a.email ∈ emails af then emails af else emails af ++ [a.email] := by
  simp [emails, AddOrUpdateAccount, emails_addOrUpdateList]

theorem mem_emails_AddOrUpdateAccount (af : AccountsFile) (a : Account) :
    a.email ∈ emails (AddOrUpdateAccount af a) := by
  rw [emails_AddOrUpdateAccount]
  by_cases hm : a.email ∈ emails af <;> simp [hm]

theorem Inv.add (af : AccountsFile) (a : Account) (h : Inv af) :
    Inv (AddOrUpdateAccount af a) := by
  obtain ⟨hnd, _, _⟩ := h
  refine ⟨?_, Or.inr (mem_emails_AddOrUpdateAccount af a), fun hc => ?_⟩
  · rw [emails_AddOrUpdateAccount]
    by_cases hm : a.email ∈ emails af
    · simpa [hm] using hnd
    · simp [hm, List.nodup_append, hnd]
  · exact absurd hc (addOrUpdateList_ne_nil af.accounts a)

theorem Inv.remove (af : AccountsFile) (e : String) (h : Inv af) :
    Inv (RemoveAccount af e).1 := by
  obtain ⟨hnd, hact, hemp⟩ := h
  cases hrf : removeFirst af.accounts e with
  | none => simpa [RemoveAccount, hrf] using ⟨hnd, hact, hemp⟩
  | some rest =>
    obtain ⟨l1, b, l2, hsplit, hbe, hclean, hrest⟩ :=
      removeFirst_eq_some af.accounts e rest hrf
    have hnd' : (rest.map (·.email)).Nodup := by
      have hsubl : rest.Sublist af.accounts := by
        rw [hsplit, hrest]
        exact List.Sublist.append_left (List.sublist_cons_self b l2) l1
      exact List.Nodup.sublist (hsubl.map (·.email)) hnd
    have hmem' : af.active ∈ (l1.map (·.email)) ++ b.email :: (l2.map (·.email)) ∨
        af.active = "" := by
      rcases hact with h0 | hmem
      · exact Or.inr h0
      · refine Or.inl ?_
        simp only [emails, hsplit, List.map_append, List.map_cons] at hmem
        exact hmem
    refine ⟨?_, ?_, ?_⟩
    · simpa [RemoveAccount, hrf, emails] using hnd'
    · simp only [RemoveAccount, hrf, emails]
      by_cases ha : af.active = e
      · rw [if_pos ha]
        cases rest with
        | nil => exact Or.inl rfl
        | cons x tl => exact Or.inr (by simp)
      · rw [if_neg ha]
        rcases hmem' with hmem | h0
        · refine Or.inr ?_
          rw [hrest]
          simp only [List.map_append, List.map_cons, List.mem_append,
            List.mem_cons] at hmem ⊢
          rcases hmem with h1 | h2 | h3
          · exact Or.inl h1
          · exact absurd (h2.trans hbe) ha
          · exact Or.inr h3
        · exact Or.inl h0
    · simp only [RemoveAccount, hrf]
      intro hre
      subst hre
      by_cases ha : af.active = e
      · rw [if_pos ha]
      · rw [if_neg ha]
        have hl1 : l1 = [] := (List.append_eq_nil.1 hrest.symm).1
        rcases hmem' with hmem | h0
        · rw [hl1] at hmem
          have hl2 : l2 = [] := (List.append_eq_nil.1 hrest.symm).2
          rw [hl2] at hmem
          simp only [List.map_nil, List.nil_append, List.mem_singleton] at hmem
          exact absurd (hmem.trans hbe) ha
        · exact h0

theorem Inv.set (af : AccountsFile) (e : String) (h : Inv af) :
    Inv (SetActive af e).1 := by
  by_cases hm : af.accounts.any (fun a => a.email = e) = true
  · have hmem : e ∈ emails af := by
      rw [List.any_eq_true] at hm
      obtain ⟨x, hx, hxe⟩ := hm
      simp only [decide_eq_true_eq] at hxe
      exact hxe ▸ List.mem_map_of_mem _ hx
    have hne : af.accounts ≠ [] := by
      intro h0
      rw [h0] at hm
      simp at hm
    simp only [SetActive, if_pos hm]
    exact ⟨h.1, Or.inr hmem, fun hc => absurd hc hne⟩
  · simpa [SetActive, hm] using h

theorem reachable_inv (af : AccountsFile) (h : Reachable af) : Inv af := by
  induction h with
  | empty => exact ⟨by simp [emails, emptyStore], Or.inl rfl, fun _ => rfl⟩
  | add af a _ ih => exact Inv.add af a ih
  | remove af e _ ih => exact Inv.remove af e ih
  | set af e _ ih => exact Inv.set af e ih

/-! ## Counting distinct emails under repeated AddOrUpdateAccount -/

/-- A whole history of logins: every `AddOrUpdateAccount` call in order,
starting from the empty store. -/
def addAll (as : List Account) : AccountsFile :=
  as.foldl AddOrUpdateAccount emptyStore

theorem mem_emails_foldl (as : List Account) (af : AccountsFile) (x : String) :
    x ∈ emails (as.foldl AddOrUpdateAccount af) ↔
      x ∈ emails af ∨ x ∈ as.map (·.email) := by
  induction as generalizing af with
  | nil => simp
  | cons a tl ih =>
    rw [List.foldl_cons, ih, emails_AddOrUpdateAccount]
    by_cases hm : a.email ∈ emails af
    · simp only [if_pos hm, List.map_cons, List.mem_cons]
      constructor
      · intro h
        tauto
      · rintro (h | rfl | h)
        · exact Or.inl h
        · exact Or.inl hm
        · exact Or.inr h
    · simp only [if_neg hm, List.mem_append, List.map_cons, List.mem_cons,
        List.mem_singleton]
      tauto

theorem nodup_emails_foldl (as : List Account) (af : AccountsFile)
    (h : (emails af).Nodup) :
    (emails (as.foldl AddOrUpdateAccount af)).Nodup := by
  induction as generalizing af with
  | nil => exact h
  | cons a tl ih =>
    rw [List.foldl_cons]
    refine ih _ ?_
    rw [emails_AddOrUpdateAccount]
    by_cases hm : a.email ∈ emails af
    · simpa [hm] using h
    · simp [hm, List.nodup_append, h]

theorem AccountCount_eq_length_emails (af : AccountsFile) :
    AccountCount af = (emails af).length := by
  simp [AccountCount, emails]

theorem length_emails_AddOrUpdateAccount (af : AccountsFile) (a : Account) :
    (emails (AddOrUpdateAccount af a)).length =
      if a.email ∈ emails af then (emails af).length
      else (emails af).length + 1 := by
  rw [emails_AddOrUpdateAccount]
  by_cases hm : a.email ∈ emails af <;> simp [hm]

theorem AccountCount_addAll (as : List Account) :
    AccountCount (addAll as) = (as.map (·.email)).dedup.length := by
  have hnd : (emails (addAll as)).Nodup :=
    nodup_emails_foldl as emptyStore (by simp [emails, emptyStore])
  have hset : (emails (addAll as)).toFinset = (as.map (·.email)).toFinset := by
    ext x
    simp only [List.mem_toFinset]
    rw [addAll, mem_emails_foldl]
    simp [emails, emptyStore]
  calc AccountCount (addAll as) = (emails (addAll as)).length :=
        AccountCount_eq_length_emails _
    _ = (emails (addAll as)).toFinset.card :=
        (List.toFinset_card_of_nodup hnd).symm
    _ = ((as.map (·.email)).toFinset).card := by rw [hset]
    _ = (as.map (·.email)).dedup.length := List.card_toFinset _

theorem AccountCount_addAll_seen (as : List Account) (a : Account)
    (h : a.email ∈ as.map (·.email)) :
    AccountCount (AddOrUpdateAccount (addAll as) a) = AccountCount (addAll as) := by
  have hm : a.email ∈ emails (addAll as) := by
    rw [addAll, mem_emails_foldl]
    exact Or.inr h
  rw [AccountCount_eq_length_emails, AccountCount_eq_length_emails,
    length_emails_AddOrUpdateAccount, if_pos hm]

/-! ## Persistence round trip and sync decomposition -/

theorem unmarshal_marshal_account (a : Account) :
    unmarshalAccount (marshalAccount a) = a := by
  cases a with
  | mk email accessToken metricsToken lastLogin =>
    simp only [marshalAccount, unmarshalAccount]
    by_cases hm : metricsToken = "" <;> by_cases hl : lastLogin = 0 <;>
      simp [hm, hl]

theorem unmarshal_marshal (af : AccountsFile) :
    unmarshalDoc (marshalDoc af) = af := by
  cases af with
  | mk active accounts =>
    simp [marshalDoc, unmarshalDoc, List.map_map, Function.comp_def,
      unmarshal_marshal_account]

theorem syncLastLoginStep_eq (ok : SetterKind → Bool) (account : Account)
    (cfg : LegacyConfig) (calls : List SetterKind) :
    syncLastLoginStep ok account cfg calls =
      ⟨(runSetters ok account cfg
          (if account.lastLogin = 0 then [] else [SetterKind.lastLogin])).config,
        calls ++ (runSetters ok account cfg
          (if account.lastLogin = 0 then [] else [SetterKind.lastLogin])).calls,
        (runSetters ok account cfg
          (if account.lastLogin = 0 then [] else [SetterKind.lastLogin])).err⟩ := by
  by_cases hl : account.lastLogin = 0
  · simp [syncLastLoginStep, hl, runSetters]
  · by_cases ho : ok .lastLogin
    · simp [syncLastLoginStep, hl, ho, runSetters, applySetter]
    · simp [syncLastLoginStep, hl, ho, runSetters]

theorem syncMetricsStep_eq (ok : SetterKind → Bool) (account : Account)
    (cfg : LegacyConfig) (calls : List SetterKind) :
    syncMetricsStep ok account cfg calls =
      ⟨(runSetters ok account cfg
          ((if account.metricsToken = "" then [] else [SetterKind.metricsToken]) ++
            (if account.lastLogin = 0 then [] else [SetterKind.lastLogin]))).config,
        calls ++ (runSetters ok account cfg
          ((if account.metricsToken = "" then [] else [SetterKind.metricsToken]) ++
            (if account.lastLogin = 0 then [] else [SetterKind.lastLogin]))).calls,
        (runSetters ok account cfg
          ((if account.metricsToken = "" then [] else [SetterKind.metricsToken]) ++
            (if account.lastLogin = 0 then [] else [SetterKind.lastLogin]))).err⟩ := by
  by_cases hm : account.metricsToken = ""
  · rw [syncMetricsStep, if_pos hm, syncLastLoginStep_eq]
    simp [hm]
  · by_cases ho : ok .metricsToken
    · rw [syncMetricsStep, if_neg hm, if_pos ho, syncLastLoginStep_eq]
      simp [hm, ho, runSetters, applySetter]
    · rw [syncMetricsStep, if_neg hm, if_neg ho]
      simp [hm, ho, runSetters]

theorem sync_eq_spec (ok : SetterKind → Bool) (fs : FS) (configDir : String)
    (cfg : LegacyConfig) :
    SyncActiveAccountToConfig ok fs configDir cfg =
      syncActiveSpec ok fs configDir cfg := by
  rw [SyncActiveAccountToConfig, syncActiveSpec]
  cases LoadAccounts fs configDir with
  | error e => rfl
  | ok af =>
    dsimp only
    by_cases hh : HasAccounts af
    · rw [if_pos hh, if_pos hh]
      cases GetActiveAccount af with
      | error e => rfl
      | ok account =>
        dsimp only
        by_cases ho : ok .accessToken
        · rw [if_pos ho, syncMetricsStep_eq, plannedSetters]
          simp [ho, runSetters, applySetter]
        · rw [if_neg ho, plannedSetters]
          simp [ho, runSetters]
    · rw [if_neg hh, if_neg hh]

theorem nodup_emails_remove (af : AccountsFile) (e : String)
    (h : (emails af).Nodup) : (emails (RemoveAccount af e).1).Nodup := by
  cases hrf : removeFirst af.accounts e with
  | none => simpa [RemoveAccount.eq_def, hrf] using h
  | some rest =>
    obtain ⟨l1, b, l2, hsplit, hbe, hclean, hrest⟩ :=
      removeFirst_eq_some af.accounts e rest hrf
    have hsubl : rest.Sublist af.accounts := by
      rw [hsplit, hrest]
      exact List.Sublist.append_left (List.sublist_cons_self b l2) l1
    have hnd : (rest.map (·.email)).Nodup :=
      List.Nodup.sublist (hsubl.map (·.email)) h
    simpa [RemoveAccount.eq_def, hrf, emails] using hnd

theorem accounts_SetActive (af : AccountsFile) (e : String) :
    (SetActive af e).1.accounts = af.accounts := by
  by_cases h : af.accounts.any (fun a => a.email = e) = true <;>
    simp [SetActive, h]

/-! ## Claims -/

/-- C1: invariant I3 holds for every store reachable through the Account
Store operations — an empty `accounts` sequence forces an empty `active`
marker — and in particular removing the last remaining account of a
reachable store leaves `HasAccounts` false and `active` empty. -/
theorem C1_thm :
    (∀ af, Reachable af → af.accounts = [] → af.active = "") ∧
    (∀ af email (af' : AccountsFile), Reachable af → AccountCount af = 1 →
      RemoveAccount af email = (af', none) →
      HasAccounts af' = false ∧ af'.active = "") := by
  constructor
  · exact fun af h => (reachable_inv af h).2.2
  · intro af email af' hr h1 hrm
    cases hrf : removeFirst af.accounts email with
    | none =>
      rw [RemoveAccount.eq_def, hrf] at hrm
      have := congrArg Prod.snd hrm
      simp at this
    | some rest =>
      obtain ⟨l1, b, l2, hsplit, hbe, hclean, hrest⟩ :=
        removeFirst_eq_some af.accounts email rest hrf
      have hlen : af.accounts.length = 1 := h1
      rw [hsplit] at hlen
      simp only [List.length_append, List.length_cons] at hlen
      have hl1 : l1 = [] := List.length_eq_zero.1 (by omega)
      have hl2 : l2 = [] := List.length_eq_zero.1 (by omega)
      have hre : rest = [] := by rw [hrest, hl1, hl2]; rfl
      subst hre
      rw [RemoveAccount.eq_def, hrf] at hrm
      dsimp only at hrm
      rw [Prod.mk.injEq] at hrm
      obtain ⟨haf, -⟩ := hrm
      subst haf
      constructor
      · simp [HasAccounts]
      · by_cases ha : af.active = email
        · simp [ha]
        · simp only [if_neg ha]
          have hinv := reachable_inv af hr
          rcases hinv.2.1 with h0 | hmem
          · exact h0
          · simp only [emails, hsplit, hl1, hl2, List.nil_append,
              List.map_cons, List.map_nil, List.mem_singleton] at hmem
            exact absurd (hmem.trans hbe) ha

/-- C1 witness: adding one account to the empty store and removing it again
lands on a store with no accounts and an empty active marker. -/
theorem C1_wit : (emptyStore.active = "") ∧
    (HasAccounts emptyStore = false ∧ emptyStore.active = "") :=
  ⟨C1_thm.1 emptyStore Reachable.empty rfl,
    C1_thm.2 (AddOrUpdateAccount emptyStore ⟨"a", "t", "", 0⟩) "a" emptyStore
      (Reachable.add _ _ Reachable.empty) (by decide) (by decide)⟩

/-- C2: the call `GetActiveAccount` returns the NoAccounts error exactly on the empty
store; on a non-empty store it returns the first entry when `active` is empty
or matches no entry, and the entry whose email equals `active` when one
does (uniquely, under I1). -/
theorem C2_thm (af : AccountsFile) :
    (GetActiveAccount af = .error .noAccounts ↔ af.accounts = []) ∧
    (∀ a rest, af.accounts = a :: rest →
      ((af.active = "" → GetActiveAccount af = .ok a) ∧
       ((∀ x ∈ af.accounts, x.email ≠ af.active) → GetActiveAccount af = .ok a) ∧
       (∀ x ∈ af.accounts, x.email = af.active → af.active ≠ "" →
         (emails af).Nodup → GetActiveAccount af = .ok x))) := by
  constructor
  · constructor
    · intro h
      cases hacc : af.accounts with
      | nil => rfl
      | cons a rest =>
        exfalso
        rw [GetActiveAccount.eq_def, hacc] at h
        dsimp only at h
        by_cases hact : af.active = ""
        · rw [if_pos hact] at h
          simp at h
        · rw [if_neg hact] at h
          cases hf : (a :: rest).find? (fun x => x.email = af.active) with
          | none =>
            rw [hf] at h
            simp at h
          | some x =>
            rw [hf] at h
            simp at h
    · intro h
      rw [GetActiveAccount.eq_def, h]
  · intro a rest h
    refine ⟨?_, ?_, ?_⟩
    · intro h0
      rw [GetActiveAccount.eq_def, h]
      dsimp only
      rw [if_pos h0]
    · intro hnm
      rw [GetActiveAccount.eq_def, h]
      dsimp only
      by_cases hact : af.active = ""
      · rw [if_pos hact]
      · rw [if_neg hact]
        have hf : (a :: rest).find? (fun x => x.email = af.active) = none := by
          rw [List.find?_eq_none]
          intro x hx
          simp only [decide_eq_true_eq]
          exact hnm x (h ▸ hx)
        rw [hf]
    · intro x hx hxe hact hnd
      have hnd' : ((a :: rest).map (·.email)).Nodup := by
        simpa [emails, h] using hnd
      have hf := find?_of_nodup (a :: rest) x af.active hnd' (h ▸ hx) hxe
      rw [GetActiveAccount.eq_def, h]
      dsimp only
      rw [if_neg hact, hf]

/-- C2 witness: on the empty store the call fails with NoAccounts; with two
accounts and `active = "b"` it returns the `"b"` entry; with a stale
`active = "c"` it falls back to the first entry. -/
theorem C2_wit :
    (GetActiveAccount emptyStore = .error .noAccounts) ∧
    GetActiveAccount ⟨"b", [⟨"a", "s", "", 0⟩, ⟨"b", "t", "", 0⟩]⟩ =
      .ok ⟨"b", "t", "", 0⟩ ∧
    GetActiveAccount ⟨"c", [⟨"a", "s", "", 0⟩, ⟨"b", "t", "", 0⟩]⟩ =
      .ok ⟨"a", "s", "", 0⟩ :=
  ⟨(C2_thm emptyStore).1.2 rfl,
    ((C2_thm ⟨"b", [⟨"a", "s", "", 0⟩, ⟨"b", "t", "", 0⟩]⟩).2 ⟨"a", "s", "", 0⟩
        [⟨"b", "t", "", 0⟩] rfl).2.2 ⟨"b", "t", "", 0⟩ (by decide) rfl
      (by decide) (by decide),
    ((C2_thm ⟨"c", [⟨"a", "s", "", 0⟩, ⟨"b", "t", "", 0⟩]⟩).2 ⟨"a", "s", "", 0⟩
        [⟨"b", "t", "", 0⟩] rfl).2.1 (by decide)⟩

/-- C3 counterexample: for the account with the empty email — which the data
model rules out for stored accounts — the final consequence fails: adding
`⟨"", "t"⟩` to the store `⟨"x", [⟨"x", "s"⟩]⟩` sets `active := ""`, so
`GetActiveAccount` falls back to the first entry `⟨"x", "s"⟩`, not to the
account just added. -/
theorem C3_cex :
    GetActiveAccount (AddOrUpdateAccount ⟨"x", [⟨"x", "s", "", 0⟩]⟩
        ⟨"", "t", "", 0⟩) ≠
      Except.ok ⟨"", "t", "", 0⟩ := by decide

/-- C3 amended: for every store and account, `AddOrUpdateAccount` (which has
no error return) replaces the entry with the account's email in place at its
position, or appends when none exists; it always sets `active` to the
account's email; and — provided the account's email is non-empty, as the data
model requires of stored accounts — a subsequent `GetActiveAccount` returns
the account, from any prior state. -/
theorem C3_thm (af : AccountsFile) (account : Account) :
    (∀ l1 b l2, af.accounts = l1 ++ b :: l2 →
      (∀ c ∈ l1, c.email ≠ account.email) → b.email = account.email →
      (AddOrUpdateAccount af account).accounts = l1 ++ account :: l2) ∧
    ((∀ b ∈ af.accounts, b.email ≠ account.email) →
      (AddOrUpdateAccount af account).accounts = af.accounts ++ [account]) ∧
    (AddOrUpdateAccount af account).active = account.email ∧
    (account.email ≠ "" →
      GetActiveAccount (AddOrUpdateAccount af account) = .ok account) := by
  refine ⟨?_, ?_, rfl, ?_⟩
  · intro l1 b l2 hsplit hclean hb
    show addOrUpdateList af.accounts account = l1 ++ account :: l2
    rw [hsplit]
    exact addOrUpdateList_replace l1 b l2 account hclean hb
  · intro hnm
    show addOrUpdateList af.accounts account = af.accounts ++ [account]
    exact addOrUpdateList_of_not_mem af.accounts account hnm
  · intro hne
    have hfind := find?_addOrUpdateList af.accounts account
    cases hacc : addOrUpdateList af.accounts account with
    | nil => exact absurd hacc (addOrUpdateList_ne_nil af.accounts account)
    | cons c tl =>
      rw [hacc] at hfind
      have hacts : (AddOrUpdateAccount af account).accounts = c :: tl := hacc
      have hactv : (AddOrUpdateAccount af account).active = account.email := rfl
      rw [GetActiveAccount.eq_def, hacts, hactv]
      dsimp only
      rw [if_neg hne, hfind]

/-- C3 witness: updating the existing `"a"` entry of a two-account store
switches `active` back to `"a"` and `GetActiveAccount` returns the updated
account. -/
theorem C3_wit :
    (AddOrUpdateAccount ⟨"b", [⟨"a", "s", "", 0⟩, ⟨"b", "t", "", 0⟩]⟩
        ⟨"a", "u", "", 0⟩).accounts = [] ++ ⟨"a", "u", "", 0⟩ ::
          [⟨"b", "t", "", 0⟩] ∧
    (AddOrUpdateAccount ⟨"b", [⟨"a", "s", "", 0⟩, ⟨"b", "t", "", 0⟩]⟩
        ⟨"a", "u", "", 0⟩).active = "a" ∧
    GetActiveAccount (AddOrUpdateAccount
        ⟨"b", [⟨"a", "s", "", 0⟩, ⟨"b", "t", "", 0⟩]⟩ ⟨"a", "u", "", 0⟩) =
      .ok ⟨"a", "u", "", 0⟩ :=
  ⟨(C3_thm ⟨"b", [⟨"a", "s", "", 0⟩, ⟨"b", "t", "", 0⟩]⟩ ⟨"a", "u", "", 0⟩).1
      [] ⟨"a", "s", "", 0⟩ [⟨"b", "t", "", 0⟩] rfl (by simp) (by decide),
    (C3_thm ⟨"b", [⟨"a", "s", "", 0⟩, ⟨"b", "t", "", 0⟩]⟩ ⟨"a", "u", "", 0⟩).2.2.1,
    (C3_thm ⟨"b", [⟨"a", "s", "", 0⟩, ⟨"b", "t", "", 0⟩]⟩ ⟨"a", "u", "", 0⟩).2.2.2
      (by decide)⟩

theorem removeAccount_total (af : AccountsFile) (email : String)
    (hmem : ∃ a ∈ af.accounts, a.email = email) :
    ∃ af', RemoveAccount af email = (af', none) := by
  cases hrf : removeFirst af.accounts email with
  | none =>
    rw [removeFirst_eq_none] at hrf
    obtain ⟨a, ha, hae⟩ := hmem
    exact absurd hae (hrf a ha)
  | some rest =>
    refine ⟨(RemoveAccount af email).1, ?_⟩
    rw [RemoveAccount.eq_def, hrf]

theorem removeAccount_ok_spec (af : AccountsFile) (email : String)
    (af' : AccountsFile) (hrm : RemoveAccount af email = (af', none)) :
    (∃ l1 b l2, af.accounts = l1 ++ b :: l2 ∧ b.email = email ∧
      (∀ c ∈ l1, c.email ≠ email) ∧ af'.accounts = l1 ++ l2) ∧
    (af.active = email → ∀ a rest, af'.accounts = a :: rest →
      af'.active = a.email) ∧
    (af.active = email → af'.accounts = [] → af'.active = "") ∧
    (Reachable af → af'.accounts = [] → af'.active = "") := by
  cases hrf : removeFirst af.accounts email with
  | none =>
    rw [RemoveAccount.eq_def, hrf] at hrm
    have := congrArg Prod.snd hrm
    simp at this
  | some rest =>
    have hreach : Reachable af → Reachable af' := by
      intro hr
      have := Reachable.remove af email hr
      rwa [hrm] at this
    rw [RemoveAccount.eq_def, hrf] at hrm
    dsimp only at hrm
    rw [Prod.mk.injEq] at hrm
    obtain ⟨haf, -⟩ := hrm
    subst haf
    obtain ⟨l1, b, l2, hsplit, hbe, hclean, hrest⟩ :=
      removeFirst_eq_some af.accounts email rest hrf
    refine ⟨⟨l1, b, l2, hsplit, hbe, hclean, hrest⟩, ?_, ?_, ?_⟩
    · intro ha a rtl hacc
      simp only at hacc
      subst hacc
      simp [ha]
    · intro ha hacc
      simp only at hacc
      subst hacc
      simp [ha]
    · intro hr hacc
      exact ((reachable_inv _ (hreach hr)).2.2) hacc

/-- C4: on any store containing an entry with the given email,
`RemoveAccount` succeeds and deletes exactly the first such entry, keeping
the others in their relative order; when the removed entry was active, the
new `active` is the head email of the remaining sequence — the previously
first remaining entry in original insertion order — or the empty string when
nothing remains; on a reachable store an emptied store always ends with
`active = ""`. -/
theorem C4_thm (af : AccountsFile) (email : String)
    (hmem : ∃ a ∈ af.accounts, a.email = email) :
    ∃ af', RemoveAccount af email = (af', none) ∧
      (∃ l1 b l2, af.accounts = l1 ++ b :: l2 ∧ b.email = email ∧
        (∀ c ∈ l1, c.email ≠ email) ∧ af'.accounts = l1 ++ l2) ∧
      (af.active = email → ∀ a rest, af'.accounts = a :: rest →
        af'.active = a.email) ∧
      (af.active = email → af'.accounts = [] → af'.active = "") ∧
      (Reachable af → af'.accounts = [] → af'.active = "") := by
  obtain ⟨af', hrm⟩ := removeAccount_total af email hmem
  exact ⟨af', hrm, removeAccount_ok_spec af email af' hrm⟩

/-- C4 witness: removing the active `"a"` from a three-account store
succeeds, keeps `["b", "c"]` in order, and activates the first remaining
entry. -/
theorem C4_wit :
    ∃ af', RemoveAccount
        ⟨"a", [⟨"a", "s", "", 0⟩, ⟨"b", "t", "", 0⟩, ⟨"c", "u", "", 0⟩]⟩
        "a" = (af', none) ∧
      (∃ l1 b l2,
        (⟨"a", [⟨"a", "s", "", 0⟩, ⟨"b", "t", "", 0⟩, ⟨"c", "u", "", 0⟩]⟩ :
          AccountsFile).accounts = l1 ++ b :: l2 ∧ b.email = "a" ∧
        (∀ c ∈ l1, c.email ≠ "a") ∧ af'.accounts = l1 ++ l2) ∧
      ((⟨"a", [⟨"a", "s", "", 0⟩, ⟨"b", "t", "", 0⟩, ⟨"c", "u", "", 0⟩]⟩ :
          AccountsFile).active = "a" → ∀ a rest,
        af'.accounts = a :: rest → af'.active = a.email) ∧
      ((⟨"a", [⟨"a", "s", "", 0⟩, ⟨"b", "t", "", 0⟩, ⟨"c", "u", "", 0⟩]⟩ :
          AccountsFile).active = "a" → af'.accounts = [] →
        af'.active = "") ∧
      (Reachable
          ⟨"a", [⟨"a", "s", "", 0⟩, ⟨"b", "t", "", 0⟩, ⟨"c", "u", "", 0⟩]⟩ →
        af'.accounts = [] → af'.active = "") :=
  C4_thm ⟨"a", [⟨"a", "s", "", 0⟩, ⟨"b", "t", "", 0⟩, ⟨"c", "u", "", 0⟩]⟩
    "a" ⟨⟨"a", "s", "", 0⟩, by decide, rfl⟩

/-- C5: when no entry carries the given email, `RemoveAccount` and
`SetActive` both report AccountNotFound and return the store entirely
unchanged — same `accounts`, same `active`. -/
theorem C5_thm (af : AccountsFile) (email : String)
    (h : ∀ a ∈ af.accounts, a.email ≠ email) :
    RemoveAccount af email = (af, some .accountNotFound) ∧
    SetActive af email = (af, some .accountNotFound) := by
  constructor
  · have hrf : removeFirst af.accounts email = none :=
      (removeFirst_eq_none af.accounts email).2 h
    rw [RemoveAccount.eq_def, hrf]
  · have hany : af.accounts.any (fun a => a.email = email) = false := by
      rw [List.any_eq_false]
      intro x hx
      simpa using h x hx
    simp [SetActive, hany]

/-- C5 witness: removing or activating the unknown email `"z"` on a
two-account store is a reported no-op. -/
theorem C5_wit :
    RemoveAccount ⟨"a", [⟨"a", "s", "", 0⟩, ⟨"b", "t", "", 0⟩]⟩ "z" =
      (⟨"a", [⟨"a", "s", "", 0⟩, ⟨"b", "t", "", 0⟩]⟩, some .accountNotFound) ∧
    SetActive ⟨"a", [⟨"a", "s", "", 0⟩, ⟨"b", "t", "", 0⟩]⟩ "z" =
      (⟨"a", [⟨"a", "s", "", 0⟩, ⟨"b", "t", "", 0⟩]⟩, some .accountNotFound) :=
  C5_thm ⟨"a", [⟨"a", "s", "", 0⟩, ⟨"b", "t", "", 0⟩]⟩ "z" (by decide)

/-- C6: invariant I1 — no duplicate emails — is preserved by every store
operation, and over any login history from the empty store `AccountCount`
equals the number of distinct emails added, a repeated email leaving the
count unchanged. -/
theorem C6_thm :
    (∀ af a, (emails af).Nodup → (emails (AddOrUpdateAccount af a)).Nodup) ∧
    (∀ af e, (emails af).Nodup → (emails (RemoveAccount af e).1).Nodup) ∧
    (∀ af e, (emails af).Nodup → (emails (SetActive af e).1).Nodup) ∧
    (∀ as, AccountCount (addAll as) = (as.map (·.email)).dedup.length) ∧
    (∀ as a, a.email ∈ as.map (·.email) →
      AccountCount (AddOrUpdateAccount (addAll as) a) =
        AccountCount (addAll as)) := by
  refine ⟨?_, nodup_emails_remove, ?_, AccountCount_addAll,
    AccountCount_addAll_seen⟩
  · intro af a h
    rw [emails_AddOrUpdateAccount]
    by_cases hm : a.email ∈ emails af
    · simpa [hm] using h
    · simp [hm, List.nodup_append, h]
  · intro af e h
    rw [emails, accounts_SetActive]
    exact h

/-- C6 witness: adding a fresh email keeps the emails duplicate-free, and
three adds with two distinct emails produce a count of 2 that a repeated
email does not change. -/
theorem C6_wit :
    (emails (AddOrUpdateAccount ⟨"a", [⟨"a", "s", "", 0⟩]⟩
      ⟨"b", "t", "", 0⟩)).Nodup ∧
    AccountCount (addAll
        [⟨"a", "s", "", 0⟩, ⟨"b", "t", "", 0⟩, ⟨"a", "u", "", 0⟩]) =
      (([⟨"a", "s", "", 0⟩, ⟨"b", "t", "", 0⟩, ⟨"a", "u", "", 0⟩] :
        List Account).map (·.email)).dedup.length ∧
    AccountCount (AddOrUpdateAccount (addAll
        [⟨"a", "s", "", 0⟩, ⟨"b", "t", "", 0⟩, ⟨"a", "u", "", 0⟩])
        ⟨"a", "v", "", 0⟩) =
      AccountCount (addAll
        [⟨"a", "s", "", 0⟩, ⟨"b", "t", "", 0⟩, ⟨"a", "u", "", 0⟩]) :=
  ⟨C6_thm.1 ⟨"a", [⟨"a", "s", "", 0⟩]⟩ ⟨"b", "t", "", 0⟩ (by decide),
    C6_thm.2.2.2.1 [⟨"a", "s", "", 0⟩, ⟨"b", "t", "", 0⟩, ⟨"a", "u", "", 0⟩],
    C6_thm.2.2.2.2 [⟨"a", "s", "", 0⟩, ⟨"b", "t", "", 0⟩, ⟨"a", "u", "", 0⟩]
      ⟨"a", "v", "", 0⟩ (by decide)⟩

/-- C7: saving any store and loading it back from the same directory
succeeds and returns a store equal to the original — same `active`, and the
`accounts` sequence equal element for element, the optional `metrics_token`
and `last_login` fields included (they round-trip through the `omitempty`
document encoding). -/
theorem C7_thm (fs : FS) (configDir : String) (af : AccountsFile) :
    LoadAccounts (SaveAccounts fs configDir af) configDir = .ok af := by
  simp [LoadAccounts, SaveAccounts, unmarshalAccounts, unmarshal_marshal]

/-- C8: loading from a directory whose accounts file is absent yields the
fresh empty store (zero accounts, `HasAccounts` false) without error, while
a malformed document or any other read failure is returned to the caller. -/
theorem C8_thm (fs : FS) (configDir : String) :
    (fs (AccountsFilePath configDir) = .absent →
      LoadAccounts fs configDir = .ok emptyStore ∧
      AccountCount emptyStore = 0 ∧ HasAccounts emptyStore = false) ∧
    (fs (AccountsFilePath configDir) = .malformed →
      LoadAccounts fs configDir = .error .decodeFailure) ∧
    (fs (AccountsFilePath configDir) = .unreadable →
      LoadAccounts fs configDir = .error .readFailure) := by
  refine ⟨fun h => ⟨?_, rfl, rfl⟩, fun h => ?_, fun h => ?_⟩ <;>
    simp [LoadAccounts, unmarshalAccounts, h]

/-- C8 witness: a filesystem with no accounts file loads as the empty store,
and a malformed one surfaces the decode failure. -/
theorem C8_wit :
    LoadAccounts (fun _ => FileState.absent) "dir" = .ok emptyStore ∧
    LoadAccounts (fun _ => FileState.malformed) "dir" =
      .error .decodeFailure :=
  ⟨((C8_thm (fun _ => FileState.absent) "dir").1 rfl).1,
    (C8_thm (fun _ => FileState.malformed) "dir").2.1 rfl⟩

/-- C9: a sync over a store with no accounts succeeds as a no-op with no
setter called; in general the sync behaves exactly as the spec-side model:
resolve the active account, then run the access-token setter
unconditionally, the metrics-token setter only for a non-empty metrics
token, and the last-login setter only for a non-zero timestamp, aborting at
the first failing setter with its error while keeping earlier effects. -/
theorem C9_thm (ok : SetterKind → Bool) (fs : FS) (configDir : String)
    (cfg : LegacyConfig) :
    (∀ af, LoadAccounts fs configDir = .ok af → HasAccounts af = false →
      SyncActiveAccountToConfig ok fs configDir cfg = ⟨cfg, [], none⟩) ∧
    SyncActiveAccountToConfig ok fs configDir cfg =
      syncActiveSpec ok fs configDir cfg := by
  refine ⟨?_, sync_eq_spec ok fs configDir cfg⟩
  intro af hload hhas
  rw [SyncActiveAccountToConfig, hload]
  dsimp only
  rw [hhas]
  simp

/-- C9 witness: with no accounts file present, the sync is a successful
no-op that invokes no setter and leaves the legacy config untouched. -/
theorem C9_wit :
    SyncActiveAccountToConfig (fun _ => true) (fun _ => FileState.absent)
      "dir" ⟨"", "", 0⟩ = ⟨⟨"", "", 0⟩, [], none⟩ :=
  (C9_thm (fun _ => true) (fun _ => FileState.absent) "dir" ⟨"", "", 0⟩).1
    emptyStore (by decide) rfl

theorem removeAccount_frame (af : AccountsFile) (email : String)
    (af' : AccountsFile) (hne : af.active ≠ email)
    (hrm : RemoveAccount af email = (af', none)) :
    af'.active = af.active ∧
    ∃ l1 b l2, af.accounts = l1 ++ b :: l2 ∧ b.email = email ∧
      (∀ c ∈ l1, c.email ≠ email) ∧ af'.accounts = l1 ++ l2 := by
  cases hrf : removeFirst af.accounts email with
  | none =>
    rw [RemoveAccount.eq_def, hrf] at hrm
    have := congrArg Prod.snd hrm
    simp at this
  | some rest =>
    rw [RemoveAccount.eq_def, hrf] at hrm
    dsimp only at hrm
    rw [Prod.mk.injEq] at hrm
    obtain ⟨haf, -⟩ := hrm
    subst haf
    obtain ⟨l1, b, l2, hsplit, hbe, hclean, hrest⟩ :=
      removeFirst_eq_some af.accounts email rest hrf
    exact ⟨by simp [hne], l1, b, l2, hsplit, hbe, hclean, hrest⟩

/-- C10: on any store with an entry carrying the given email where that
email is not the active one, `RemoveAccount` succeeds, deletes exactly that
entry — the first with the given email — and leaves the `active` marker
untouched. -/
theorem C10_thm (af : AccountsFile) (email : String)
    (hne : af.active ≠ email) (hmem : ∃ a ∈ af.accounts, a.email = email) :
    ∃ af', RemoveAccount af email = (af', none) ∧
      af'.active = af.active ∧
      ∃ l1 b l2, af.accounts = l1 ++ b :: l2 ∧ b.email = email ∧
        (∀ c ∈ l1, c.email ≠ email) ∧ af'.accounts = l1 ++ l2 := by
  obtain ⟨af', hrm⟩ := removeAccount_total af email hmem
  exact ⟨af', hrm, removeAccount_frame af email af' hne hrm⟩

/-- C10 witness: removing the non-active `"b"` from a three-account store
keeps `active = "a"` and drops exactly the `"b"` entry. -/
theorem C10_wit :
    ∃ af', RemoveAccount
        ⟨"a", [⟨"a", "s", "", 0⟩, ⟨"b", "t", "", 0⟩, ⟨"c", "u", "", 0⟩]⟩
        "b" = (af', none) ∧
      af'.active =
        (⟨"a", [⟨"a", "s", "", 0⟩, ⟨"b", "t", "", 0⟩, ⟨"c", "u", "", 0⟩]⟩ :
          AccountsFile).active ∧
      ∃ l1 b l2,
        (⟨"a", [⟨"a", "s", "", 0⟩, ⟨"b", "t", "", 0⟩, ⟨"c", "u", "", 0⟩]⟩ :
          AccountsFile).accounts = l1 ++ b :: l2 ∧ b.email = "b" ∧
        (∀ c ∈ l1, c.email ≠ "b") ∧ af'.accounts = l1 ++ l2 :=
  C10_thm ⟨"a", [⟨"a", "s", "", 0⟩, ⟨"b", "t", "", 0⟩, ⟨"c", "u", "", 0⟩]⟩
    "b" (by decide) ⟨⟨"b", "t", "", 0⟩, by decide, rfl⟩

end Flyctl
